import Mathlib

/-!
Verification of the FlakyGuard engine (`engine.py`): flaky-test detection by
flip rate, keyword/duration root-cause classification, cost attribution and
report ingestion.  The SQLite store is modelled as an append-only list of
rows in insertion order (`id` = position); SQL `ORDER BY ts, id` becomes a
stable sort on the timestamp; Python floats are modelled as rationals and
`round(x, d)` as exact half-to-even decimal rounding.
-/

namespace FlakyGuard

/-- Test status, the three values `ingest` ever stores. -/
inductive Status where
  | pass
  | fail
  | error
  deriving DecidableEq, Repr

/-- One row of the `runs` table: (name, status, duration, error, run_id, ts).
The SQL rowid (insertion order) is the row's position in the store list. -/
structure TestResult where
  name : String
  status : Status
  duration : ℚ
  error : String
  run_id : String
  ts : ℕ
  deriving DecidableEq, Repr

/-- The append-only store: rows in insertion order. -/
abbrev Store := List TestResult

/-- Rows of one test, in insertion order: `WHERE name = ?`. -/
def resultsFor (db : Store) (name : String) : List TestResult :=
  db.filter (fun r => decide (r.name = name))

/-- Insert a row before the first row with a timestamp `≥` its own; together
with `sortByTs` this realises the stable `ORDER BY ts, id`. -/
def insertTs (r : TestResult) : List TestResult → List TestResult
  | [] => [r]
  | x :: xs => if r.ts ≤ x.ts then r :: x :: xs else x :: insertTs r xs

/-- Stable sort by timestamp (ties keep insertion order): `ORDER BY ts, id`. -/
def sortByTs : List TestResult → List TestResult
  | [] => []
  | x :: xs => insertTs x (sortByTs xs)

/-- The ordered status sequence S[0..n-1] of one test
(`SELECT status FROM runs WHERE name=? ORDER BY ts, id`). -/
def orderedStatuses (db : Store) (name : String) : List Status :=
  (sortByTs (resultsFor db name)).map (fun r => r.status)

/-- `sum(1 for i in range(1, len(sts)) if sts[i] != sts[i-1])`. -/
def countFlips : List Status → ℕ
  | a :: b :: rest => (if a = b then 0 else 1) + countFlips (b :: rest)
  | _ => 0

/-- `flips / max(len(sts) - 1, 1)` on a status sequence. -/
def flipRateOf (sts : List Status) : ℚ :=
  (countFlips sts : ℚ) / ((max (sts.length - 1) 1 : ℕ) : ℚ)

/-- The flip rate `detect` computes for one test. -/
def flipRate (db : Store) (name : String) : ℚ :=
  flipRateOf (orderedStatuses db name)

/-- The `CAUSES` taxonomy of `engine.py`, in declaration order. -/
def CAUSES : List (String × List String) :=
  [("timing", ["timeout", "timed out", "sleep", "deadline", "async", "wait"]),
   ("resource_leak", ["memory", "oom", "connection", "file descriptor", "too many"]),
   ("shared_state", ["already exists", "duplicate", "conflict", "locked", "dirty"]),
   ("ordering", ["not found", "setup", "fixture", "depends", "missing"]),
   ("race_condition", ["race", "concurrent", "thread", "deadlock"]),
   ("timezone", ["timezone", "utc", "tz", "offset", "dst"]),
   ("float_precision", ["precision", "float", "decimal", "almost equal"])]

/-- Python's `str.lower()`: lowercase every character. -/
def strLower (s : String) : String :=
  String.mk (s.data.map Char.toLower)

/-- Python's `kw in m`: the keyword occurs as a contiguous substring. -/
def hasKw (m kw : String) : Bool :=
  decide (kw.toList <:+: m.toList)

/-- Score of one cause: `sum(kw in m for m in msgs for kw in vs)`. -/
def causeScore (msgs : List String) (kws : List String) : ℕ :=
  (msgs.map (fun m => kws.countP (fun kw => hasKw m kw))).sum

/-- Non-passing rows of one test (`WHERE name=? AND status!='pass'`). -/
def npRows (db : Store) (name : String) : List TestResult :=
  db.filter (fun r => decide (r.name = name) && decide (r.status ≠ Status.pass))

/-- Lowercased non-passing, non-empty error messages
(`WHERE name=? AND status!='pass' AND error!=''`). -/
def classMsgs (db : Store) (name : String) : List String :=
  ((npRows db name).filter (fun r => decide (r.error ≠ ""))).map
    (fun r => strLower r.error)

/-- Durations of the non-passing rows of one test. -/
def classDurs (db : Store) (name : String) : List ℚ :=
  (npRows db name).map (fun r => r.duration)

/-- Python `max` over a list (meaningful only when nonempty). -/
def listMax : List ℚ → ℚ
  | [] => 0
  | x :: xs => xs.foldl max x

/-- Python `min` over a list (meaningful only when nonempty). -/
def listMin : List ℚ → ℚ
  | [] => 0
  | x :: xs => xs.foldl min x

/-- `len(durs) > 1 and max(durs) > 3 * max(min(durs), 0.001)`. -/
def durBonus (durs : List ℚ) : Bool :=
  decide (1 < durs.length) && decide (3 * max (listMin durs) (1 / 1000) < listMax durs)

/-- Keyword scores of every cause, in taxonomy order. -/
def rawScores (db : Store) (name : String) : List (String × ℕ) :=
  CAUSES.map (fun p => (p.1, causeScore (classMsgs db name) p.2))

/-- Scores after `scores["timing"] += 2` when the duration bonus triggers. -/
def finalScores (db : Store) (name : String) : List (String × ℕ) :=
  if durBonus (classDurs db name) then
    (rawScores db name).map (fun p => if p.1 = "timing" then (p.1, p.2 + 2) else p)
  else rawScores db name

/-- One step of Python's `max(scores, key=scores.get)`: replace the current
best only on a strictly larger score, so the first maximum wins. -/
def pickStep (acc y : String × ℕ) : String × ℕ :=
  if acc.2 < y.2 then y else acc

/-- `max(scores, key=scores.get)` over an association list in order. -/
def pickBest : List (String × ℕ) → String × ℕ
  | [] => ("", 0)
  | x :: xs => xs.foldl pickStep x

/-- `_classify(db, name)`: the best-scoring cause, or `non_deterministic`
when every score is zero. -/
def classify (db : Store) (name : String) : String :=
  if 0 < (pickBest (finalScores db name)).2 then (pickBest (finalScores db name)).1
  else "non_deterministic"

/-- Half-to-even integer rounding, as Python's `round` on exact values. -/
def rndHalfEven (q : ℚ) : ℤ :=
  if Int.fract q < 1 / 2 then ⌊q⌋
  else if 1 / 2 < Int.fract q then ⌊q⌋ + 1
  else if ⌊q⌋ % 2 = 0 then ⌊q⌋ else ⌊q⌋ + 1

/-- Python `round(q, d)` on exact decimal values. -/
def pyRound (q : ℚ) (d : ℕ) : ℚ :=
  ((rndHalfEven (q * 10 ^ d) : ℤ) : ℚ) / 10 ^ d

/-- A record of `detect` output:
`{"test", "flip_rate", "runs", "failures", "root_cause"}`. -/
structure FlakinessRecord where
  test : String
  flip_rate : ℚ
  runs : ℕ
  failures : ℕ
  root_cause : String
  deriving DecidableEq, Repr

/-- The record `detect` appends for one qualifying test. -/
def mkRecord (db : Store) (name : String) : FlakinessRecord :=
  { test := name
    flip_rate := pyRound (flipRate db name) 3
    runs := (resultsFor db name).length
    failures := ((resultsFor db name).filter (fun r => decide (r.status ≠ Status.pass))).length
    root_cause := classify db name }

/-- `detect(db, min_runs, threshold)`: one record per test with at least
`min_runs` rows and flip rate at least `threshold`. -/
def detect (db : Store) (min_runs : ℕ) (threshold : ℚ) : List FlakinessRecord :=
  ((db.map (fun r => r.name)).dedup).filterMap (fun name =>
    if min_runs ≤ (resultsFor db name).length then
      if threshold ≤ flipRate db name then some (mkRecord db name) else none
    else none)

/-- A record after `add_costs` set `cost_usd` and `reruns`. -/
structure CostedRecord extends FlakinessRecord where
  cost_usd : ℚ
  reruns : ℕ
  deriving DecidableEq, Repr

/-- `SELECT COUNT(DISTINCT run_id) FROM runs WHERE name=? AND status!='pass'`. -/
def rerunCount (db : Store) (name : String) : ℕ :=
  ((npRows db name).map (fun r => r.run_id)).dedup.length

/-- `add_costs(results, db, ci_rate, rerun_min)`. -/
def add_costs (results : List FlakinessRecord) (db : Store)
    (ci_rate rerun_min : ℚ) : List CostedRecord :=
  results.map (fun r =>
    { toFlakinessRecord := r
      cost_usd := pyRound ((rerunCount db r.test : ℚ) * rerun_min * ci_rate) 2
      reruns := rerunCount db r.test })

/-- A `<failure>`/`<error>` child element: optional `message` attribute and
optional text content. -/
structure MsgElem where
  message : Option String
  text : Option String
  deriving DecidableEq, Repr

/-- A parsed `<testcase>` element.  XML parsing and `float()` conversion are
standard-library concerns outside the engine: attributes arrive already
split into present (`some`) or absent (`none`), the `time` value as a
rational. -/
structure TestCaseElem where
  classname : Option String
  name : Option String
  time : Option ℚ
  failure : Option MsgElem
  err : Option MsgElem
  deriving DecidableEq, Repr

/-- `el.get("message", "") or el.text or ""` (Python `or`: first non-empty). -/
def childMsg (el : MsgElem) : String :=
  if el.message.getD "" ≠ "" then el.message.getD "" else el.text.getD ""

/-- The row `ingest` stores for one `<testcase>` element. -/
def rowOfTc (tc : TestCaseElem) (rid : String) (ts : ℕ) : TestResult :=
  { name := tc.classname.getD "" ++ "." ++ tc.name.getD ""
    status := if tc.failure.isSome then Status.fail
      else if tc.err.isSome then Status.error else Status.pass
    duration := tc.time.getD 0
    error := match tc.failure with
      | some el => childMsg el
      | none => match tc.err with
        | some el => childMsg el
        | none => ""
    run_id := rid
    ts := ts }

/-- `run_id = run_id or f"r-{...}"`: a caller id when non-empty (Python
truthiness), otherwise one generated from the current time. -/
def runIdOf (ridOpt : Option String) (now : ℕ) : String :=
  match ridOpt with
  | some s => if s = "" then "r-" ++ toString now else s
  | none => "r-" ++ toString now

/-- `ingest(db, xml_path, run_id)`.  `ET.parse` either fails (before any row
is written) or yields the testcase elements; on success every element is
stored and committed, and `(n, run_id)` is returned.  The result pairs the
store after the call with the outcome. -/
def ingest (db : Store) (report : Except String (List TestCaseElem))
    (ridOpt : Option String) (now : ℕ) :
    Store × Except String (ℕ × String) :=
  match report with
  | Except.error e => (db, Except.error e)
  | Except.ok tcs =>
      (db ++ tcs.map (fun tc => rowOfTc tc (runIdOf ridOpt now) now),
       Except.ok (tcs.length, runIdOf ridOpt now))

/-! ### Permutation facts about the stable timestamp sort -/

lemma insertTs_perm (r : TestResult) (l : List TestResult) :
    List.Perm (insertTs r l) (r :: l) := by
  induction l with
  | nil => simp [insertTs]
  | cons x xs ih =>
    by_cases h : r.ts ≤ x.ts
    · simp [insertTs, h]
    · simp only [insertTs, if_neg h]
      exact (ih.cons x).trans (List.Perm.swap r x xs)

lemma sortByTs_perm (l : List TestResult) : List.Perm (sortByTs l) l := by
  induction l with
  | nil => simp [sortByTs]
  | cons x xs ih => exact (insertTs_perm x (sortByTs xs)).trans (ih.cons x)

lemma sortByTs_length (l : List TestResult) : (sortByTs l).length = l.length :=
  (sortByTs_perm l).length_eq

lemma mem_sortByTs {l : List TestResult} {r : TestResult} :
    r ∈ sortByTs l ↔ r ∈ l :=
  (sortByTs_perm l).mem_iff

/-! ### Flip counting -/

lemma countFlips_le : ∀ l : List Status, countFlips l ≤ l.length - 1
  | [] => by simp [countFlips]
  | [_] => by simp [countFlips]
  | a :: b :: rest => by
    have h := countFlips_le (b :: rest)
    simp only [countFlips, List.length_cons] at *
    split_ifs <;> omega

lemma countFlips_const : ∀ l : List Status,
    (∀ a ∈ l, ∀ b ∈ l, a = b) → countFlips l = 0
  | [] , _ => rfl
  | [_], _ => rfl
  | a :: b :: rest, h => by
    have hab : a = b := h a (by simp) b (by simp)
    have htail := countFlips_const (b :: rest)
      (fun x hx y hy => h x (List.mem_cons_of_mem a hx) y (List.mem_cons_of_mem a hy))
    simp [countFlips, hab, htail]

lemma orderedStatuses_length (db : Store) (name : String) :
    (orderedStatuses db name).length = (resultsFor db name).length := by
  simp [orderedStatuses, sortByTs_length]

/-! ### Membership in `detect` output -/

lemma detect_step_eq_some {db : Store} {mr : ℕ} {th : ℚ} {name : String}
    {rec : FlakinessRecord} :
    (if mr ≤ (resultsFor db name).length then
       if th ≤ flipRate db name then some (mkRecord db name) else none
     else none) = some rec ↔
    (mr ≤ (resultsFor db name).length ∧ th ≤ flipRate db name ∧
      rec = mkRecord db name) := by
  split_ifs with h1 h2 <;> simp_all [eq_comm]

lemma mem_detect_iff {db : Store} {mr : ℕ} {th : ℚ} {rec : FlakinessRecord} :
    rec ∈ detect db mr th ↔
    ∃ name ∈ (db.map (fun r => r.name)).dedup,
      mr ≤ (resultsFor db name).length ∧ th ≤ flipRate db name ∧
      rec = mkRecord db name := by
  simp only [detect, List.mem_filterMap, detect_step_eq_some]

/-! ### Example stores used by the witnesses -/

/-- A row with zero duration, used to build small concrete stores. -/
def exRow (nm : String) (st : Status) (msg rid : String) (t : ℕ) : TestResult :=
  { name := nm, status := st, duration := 0, error := msg, run_id := rid, ts := t }

/-- A store where test `a.t` alternates pass/fail/pass over three runs. -/
def exDb : Store :=
  [exRow "a.t" Status.pass "" "r1" 1,
   exRow "a.t" Status.fail "timeout" "r2" 2,
   exRow "a.t" Status.pass "" "r3" 3]

/-- A store where test `c.v` fails identically in both of its runs. -/
def exDbSame : Store :=
  [exRow "c.v" Status.fail "boom" "r1" 1,
   exRow "c.v" Status.fail "boom" "r2" 2]

/-- C1: for a test with at least `min_runs` stored results, `detect` reports
it iff its flip rate (adjacent flips over the timestamp-then-insertion
ordered status sequence, divided by `max (n-1) 1`) is at least `threshold`. -/
theorem detect_reports_iff_threshold (db : Store) (mr : ℕ) (th : ℚ) (name : String)
    (h0 : 0 < (resultsFor db name).length)
    (hmr : mr ≤ (resultsFor db name).length) :
    (∃ r ∈ detect db mr th, r.test = name) ↔ th ≤ flipRate db name := by
  constructor
  · rintro ⟨r, hr, htest⟩
    obtain ⟨nm, _, _, hth, rfl⟩ := mem_detect_iff.1 hr
    have hnm : nm = name := by simpa [mkRecord] using htest
    exact hnm ▸ hth
  · intro hth
    have hmem : name ∈ (db.map (fun r => r.name)).dedup := by
      rw [List.mem_dedup]
      obtain ⟨r, hr⟩ := List.exists_mem_of_ne_nil _ (List.length_pos.mp h0)
      have hr' := List.mem_filter.1 hr
      have hname : r.name = name := by simpa using hr'.2
      exact List.mem_map.2 ⟨r, hr'.1, hname⟩
    exact ⟨mkRecord db name, mem_detect_iff.2 ⟨name, hmem, hmr, hth, rfl⟩, rfl⟩

/-- Witness for C1 at a concrete store. -/
theorem detect_reports_iff_threshold_witness :
    0 < (resultsFor exDb "a.t").length ∧ 3 ≤ (resultsFor exDb "a.t").length ∧
    ((∃ r ∈ detect exDb 3 1, r.test = "a.t") ↔ (1 : ℚ) ≤ flipRate exDb "a.t") :=
  ⟨by decide, by decide,
    detect_reports_iff_threshold exDb 3 1 "a.t" (by decide) (by decide)⟩

/-- C2: a test name with fewer than `min_runs` stored results never appears
in `detect` output, for any store content and any threshold. -/
theorem detect_excludes_insufficient_runs (db : Store) (mr : ℕ) (th : ℚ)
    (name : String) (h : (resultsFor db name).length < mr) :
    ∀ r ∈ detect db mr th, r.test ≠ name := by
  intro r hr
  obtain ⟨nm, _, hmr, _, rfl⟩ := mem_detect_iff.1 hr
  intro htest
  have hnm : nm = name := by simpa [mkRecord] using htest
  subst hnm
  omega

/-- Witness for C2 at a concrete store. -/
theorem detect_excludes_insufficient_runs_witness :
    (resultsFor exDb "b.u").length < 2 ∧
    ∀ r ∈ detect exDb 2 1, r.test ≠ "b.u" :=
  ⟨by decide, detect_excludes_insufficient_runs exDb 2 1 "b.u" (by decide)⟩

/-- C6: a test whose stored results (n ≥ 2) all carry the same status has
flip rate 0, and is never reported by `detect` for any positive threshold. -/
theorem constant_status_zero_rate_excluded (db : Store) (name : String)
    (mr : ℕ) (th : ℚ) (h2 : 2 ≤ (resultsFor db name).length)
    (hsame : ∀ r1 ∈ resultsFor db name, ∀ r2 ∈ resultsFor db name,
      r1.status = r2.status)
    (hth : 0 < th) :
    flipRate db name = 0 ∧ ∀ r ∈ detect db mr th, r.test ≠ name := by
  have hzero : flipRate db name = 0 := by
    have hc : countFlips (orderedStatuses db name) = 0 := by
      apply countFlips_const
      intro a ha b hb
      simp only [orderedStatuses, List.mem_map] at ha hb
      obtain ⟨ra, hra, rfl⟩ := ha
      obtain ⟨rb, hrb, rfl⟩ := hb
      exact hsame ra (mem_sortByTs.1 hra) rb (mem_sortByTs.1 hrb)
    simp [flipRate, flipRateOf, hc]
  refine ⟨hzero, ?_⟩
  intro r hr
  obtain ⟨nm, _, _, hthle, rfl⟩ := mem_detect_iff.1 hr
  intro htest
  have hnm : nm = name := by simpa [mkRecord] using htest
  subst hnm
  rw [hzero] at hthle
  exact absurd hthle (not_le.2 hth)

/-- Witness for C6 at a concrete store (a test failing in both its runs). -/
theorem constant_status_zero_rate_excluded_witness :
    2 ≤ (resultsFor exDbSame "c.v").length ∧ (0 : ℚ) < 1 ∧
    (flipRate exDbSame "c.v" = 0 ∧ ∀ r ∈ detect exDbSame 2 1, r.test ≠ "c.v") :=
  ⟨by decide, by decide,
    constant_status_zero_rate_excluded exDbSame "c.v" 2 1 (by decide)
      (by decide) (by decide)⟩

/-- C7: for a test with at least one stored result the flip rate lies in
[0, 1], and the two division guards are positive: the flip-rate denominator
`max (n-1) 1` and the duration-ratio floor `max (min durs) 0.001`. -/
theorem flipRate_unit_interval_guarded (db : Store) (name : String)
    (_h0 : 0 < (resultsFor db name).length) :
    0 ≤ flipRate db name ∧ flipRate db name ≤ 1 ∧
    (0 : ℚ) < ((max ((orderedStatuses db name).length - 1) 1 : ℕ) : ℚ) ∧
    (0 : ℚ) < max (listMin (classDurs db name)) (1 / 1000) := by
  have hdpos : (0:ℚ) <
      ((max ((orderedStatuses db name).length - 1) 1 : ℕ) : ℚ) := by
    have h1 : 0 < max ((orderedStatuses db name).length - 1) 1 :=
      Nat.lt_of_lt_of_le Nat.zero_lt_one (le_max_right _ _)
    exact_mod_cast h1
  have hflips : ((countFlips (orderedStatuses db name) : ℕ) : ℚ) ≤
      ((max ((orderedStatuses db name).length - 1) 1 : ℕ) : ℚ) := by
    have h1 : countFlips (orderedStatuses db name) ≤
        max ((orderedStatuses db name).length - 1) 1 :=
      le_trans (countFlips_le _) (le_max_left _ _)
    exact_mod_cast h1
  refine ⟨?_, ?_, hdpos, ?_⟩
  · exact div_nonneg (Nat.cast_nonneg _) hdpos.le
  · exact (div_le_one hdpos).2 hflips
  · have : (0:ℚ) < 1 / 1000 := by norm_num
    exact lt_max_of_lt_right this

/-- Witness for C7 at a concrete store. -/
theorem flipRate_unit_interval_guarded_witness :
    0 < (resultsFor exDb "a.t").length ∧
    (0 ≤ flipRate exDb "a.t" ∧ flipRate exDb "a.t" ≤ 1 ∧
      (0 : ℚ) < ((max ((orderedStatuses exDb "a.t").length - 1) 1 : ℕ) : ℚ) ∧
      (0 : ℚ) < max (listMin (classDurs exDb "a.t")) (1 / 1000)) :=
  ⟨by decide, flipRate_unit_interval_guarded exDb "a.t" (by decide)⟩

/-! ### The first-maximum fold behind `max(scores, key=scores.get)` -/

lemma foldl_pickStep : ∀ (l : List (String × ℕ)) (a : String × ℕ),
    (l.foldl pickStep a = a ∧ ∀ y ∈ l, y.2 ≤ a.2) ∨
    (∃ l1 l2, l = l1 ++ (l.foldl pickStep a) :: l2 ∧
      a.2 < (l.foldl pickStep a).2 ∧
      (∀ y ∈ l1, y.2 < (l.foldl pickStep a).2) ∧
      (∀ y ∈ l2, y.2 ≤ (l.foldl pickStep a).2))
  | [], a => Or.inl ⟨rfl, by simp⟩
  | x :: xs, a => by
    rw [List.foldl_cons]
    rcases Nat.lt_or_ge a.2 x.2 with h | h
    · have hstep : pickStep a x = x := by simp [pickStep, h]
      rw [hstep]
      rcases foldl_pickStep xs x with ⟨heq, hall⟩ | ⟨l1, l2, hsplit, hlt, h1, h2⟩
      · refine Or.inr ⟨[], xs, by simp [heq], ?_, by simp, ?_⟩
        · rw [heq]; exact h
        · rw [heq]; exact hall
      · refine Or.inr ⟨x :: l1, l2, ?_, lt_trans h hlt, ?_, h2⟩
        · rw [List.cons_append, ← hsplit]
        · intro y hy
          rcases List.mem_cons.1 hy with h' | h'
          · rw [h']; exact hlt
          · exact h1 y h'
    · have hstep : pickStep a x = a := by
        simp [pickStep, Nat.not_lt.2 h]
      rw [hstep]
      rcases foldl_pickStep xs a with ⟨heq, hall⟩ | ⟨l1, l2, hsplit, hlt, h1, h2⟩
      · refine Or.inl ⟨heq, ?_⟩
        intro y hy
        rcases List.mem_cons.1 hy with h' | h'
        · rw [h']; exact h
        · exact hall y h'
      · refine Or.inr ⟨x :: l1, l2, ?_, hlt, ?_, h2⟩
        · rw [List.cons_append, ← hsplit]
        · intro y hy
          rcases List.mem_cons.1 hy with h' | h'
          · rw [h']; exact lt_of_le_of_lt h hlt
          · exact h1 y h'

lemma pickBest_spec : ∀ l : List (String × ℕ), l ≠ [] →
    ∃ l1 l2, l = l1 ++ (pickBest l) :: l2 ∧
      (∀ y ∈ l1, y.2 < (pickBest l).2) ∧ (∀ y ∈ l2, y.2 ≤ (pickBest l).2)
  | [], h => absurd rfl h
  | x :: xs, _ => by
    simp only [pickBest]
    rcases foldl_pickStep xs x with ⟨heq, hall⟩ | ⟨l1, l2, hsplit, hlt, h1, h2⟩
    · refine ⟨[], xs, by simp [heq], by simp, ?_⟩
      rw [heq]; exact hall
    · refine ⟨x :: l1, l2, ?_, ?_, h2⟩
      · rw [List.cons_append, ← hsplit]
      · intro y hy
        rcases List.mem_cons.1 hy with h' | h'
        · rw [h']; exact hlt
        · exact h1 y h'

lemma pickBest_mem (l : List (String × ℕ)) (h : l ≠ []) : pickBest l ∈ l := by
  obtain ⟨l1, l2, hs, _, _⟩ := pickBest_spec l h
  have hmem : pickBest l ∈ l1 ++ pickBest l :: l2 :=
    List.mem_append_right _ (List.mem_cons_self _ _)
  rwa [← hs] at hmem

lemma pickBest_max (l : List (String × ℕ)) (h : l ≠ []) :
    ∀ y ∈ l, y.2 ≤ (pickBest l).2 := by
  obtain ⟨l1, l2, hs, h1, h2⟩ := pickBest_spec l h
  intro y hy
  rw [hs] at hy
  rcases List.mem_append.1 hy with hy | hy
  · exact (h1 y hy).le
  · rcases List.mem_cons.1 hy with rfl | hy
    · exact le_refl _
    · exact h2 y hy

/-! ### Score characterisations -/

lemma finalScores_ne_nil (db : Store) (name : String) :
    finalScores db name ≠ [] := by
  unfold finalScores
  split <;> simp [rawScores, CAUSES]

lemma finalScores_map_fst (db : Store) (name : String) :
    (finalScores db name).map Prod.fst =
      ["timing", "resource_leak", "shared_state", "ordering",
       "race_condition", "timezone", "float_precision"] := by
  unfold finalScores
  split <;> simp [rawScores, CAUSES]

lemma classify_eq_nd_iff (db : Store) (name : String) :
    classify db name = "non_deterministic" ↔
      (pickBest (finalScores db name)).2 = 0 := by
  unfold classify
  split_ifs with h
  · constructor
    · intro hc
      exfalso
      have hmem := pickBest_mem _ (finalScores_ne_nil db name)
      have h1 : (pickBest (finalScores db name)).1 ∈
          (finalScores db name).map Prod.fst := List.mem_map.2 ⟨_, hmem, rfl⟩
      rw [finalScores_map_fst, hc] at h1
      simp at h1
    · omega
  · simp only [eq_self_iff_true, true_iff]
    omega

lemma pickBest_finalScores_zero_iff (db : Store) (name : String) :
    (pickBest (finalScores db name)).2 = 0 ↔
      ∀ y ∈ finalScores db name, y.2 = 0 := by
  constructor
  · intro h y hy
    have := pickBest_max _ (finalScores_ne_nil db name) y hy
    omega
  · intro h
    exact h _ (pickBest_mem _ (finalScores_ne_nil db name))

lemma finalScores_all_zero_iff (db : Store) (name : String) :
    (∀ y ∈ finalScores db name, y.2 = 0) ↔
      ((∀ y ∈ rawScores db name, y.2 = 0) ∧
        durBonus (classDurs db name) = false) := by
  unfold finalScores
  cases hb : durBonus (classDurs db name) with
  | false => simp
  | true =>
    simp only [if_true]
    simp [rawScores, CAUSES]

lemma rawScores_all_zero_iff (db : Store) (name : String) :
    (∀ y ∈ rawScores db name, y.2 = 0) ↔
      ∀ p ∈ CAUSES, causeScore (classMsgs db name) p.2 = 0 := by
  constructor
  · intro h p hp
    exact h _ (List.mem_map.2 ⟨p, hp, rfl⟩)
  · intro h y hy
    obtain ⟨p, hp, rfl⟩ := List.mem_map.1 hy
    exact h p hp

lemma causeScore_eq_zero_iff (msgs kws : List String) :
    causeScore msgs kws = 0 ↔
      ∀ m ∈ msgs, ∀ kw ∈ kws, hasKw m kw = false := by
  unfold causeScore
  rw [List.sum_eq_zero_iff]
  constructor
  · intro h m hm kw hkw
    have h1 := h _ (List.mem_map.2 ⟨m, hm, rfl⟩)
    rw [List.countP_eq_zero] at h1
    simpa using h1 kw hkw
  · intro h x hx
    obtain ⟨m, hm, rfl⟩ := List.mem_map.1 hx
    rw [List.countP_eq_zero]
    intro kw hkw
    simp [h m hm kw hkw]

lemma hasKw_empty_false : ∀ p ∈ CAUSES, ∀ kw ∈ p.2, hasKw "" kw = false := by
  decide

lemma noMatch_unfiltered_iff (db : Store) (name : String) :
    (∀ m ∈ classMsgs db name, ∀ p ∈ CAUSES, ∀ kw ∈ p.2, hasKw m kw = false) ↔
    (∀ r ∈ npRows db name, ∀ p ∈ CAUSES, ∀ kw ∈ p.2,
      hasKw (strLower r.error) kw = false) := by
  constructor
  · intro h r hr p hp kw hkw
    by_cases he : r.error = ""
    · rw [he]
      exact hasKw_empty_false p hp kw hkw
    · exact h _ (List.mem_map.2
        ⟨r, List.mem_filter.2 ⟨hr, by simp [he]⟩, rfl⟩) p hp kw hkw
  · intro h m hm p hp kw hkw
    obtain ⟨r, hr, rfl⟩ := List.mem_map.1 hm
    exact h r (List.mem_filter.1 hr).1 p hp kw hkw

lemma all_causeScore_zero_iff (db : Store) (name : String) :
    (∀ p ∈ CAUSES, causeScore (classMsgs db name) p.2 = 0) ↔
    (∀ r ∈ npRows db name, ∀ p ∈ CAUSES, ∀ kw ∈ p.2,
      hasKw (strLower r.error) kw = false) := by
  rw [← noMatch_unfiltered_iff]
  constructor
  · intro h m hm p hp kw hkw
    exact ((causeScore_eq_zero_iff _ _).1 (h p hp)) m hm kw hkw
  · intro h p hp
    exact (causeScore_eq_zero_iff _ _).2 (fun m hm kw hkw => h m hm p hp kw hkw)

/-- C3: `classify` returns `non_deterministic` iff no keyword of any cause
occurs in any lowercased non-passing error message of the test and the
duration-ratio bonus does not trigger; in every other case it returns one
of the taxonomy causes. -/
theorem classify_non_deterministic_iff (db : Store) (name : String) :
    (classify db name = "non_deterministic" ↔
      ((∀ r ∈ npRows db name, ∀ p ∈ CAUSES, ∀ kw ∈ p.2,
          hasKw (strLower r.error) kw = false) ∧
        durBonus (classDurs db name) = false)) ∧
    (classify db name = "non_deterministic" ∨
      classify db name ∈ CAUSES.map Prod.fst) := by
  constructor
  · rw [classify_eq_nd_iff, pickBest_finalScores_zero_iff,
      finalScores_all_zero_iff, rawScores_all_zero_iff, all_causeScore_zero_iff]
  · by_cases h : (pickBest (finalScores db name)).2 = 0
    · left
      exact (classify_eq_nd_iff db name).2 h
    · right
      have hcl : classify db name = (pickBest (finalScores db name)).1 := by
        unfold classify
        rw [if_pos (Nat.pos_of_ne_zero h)]
      have hmem := pickBest_mem _ (finalScores_ne_nil db name)
      have h1 : (pickBest (finalScores db name)).1 ∈
          (finalScores db name).map Prod.fst := List.mem_map.2 ⟨_, hmem, rfl⟩
      rw [finalScores_map_fst] at h1
      have h2 : CAUSES.map Prod.fst =
          ["timing", "resource_leak", "shared_state", "ordering",
           "race_condition", "timezone", "float_precision"] := by
        simp [CAUSES]
      rw [hcl, h2]
      exact h1

/-- Witness for C3 at a concrete store. -/
theorem classify_non_deterministic_iff_witness :
    (classify exDb "a.t" = "non_deterministic" ↔
      ((∀ r ∈ npRows exDb "a.t", ∀ p ∈ CAUSES, ∀ kw ∈ p.2,
          hasKw (strLower r.error) kw = false) ∧
        durBonus (classDurs exDb "a.t") = false)) ∧
    (classify exDb "a.t" = "non_deterministic" ∨
      classify exDb "a.t" ∈ CAUSES.map Prod.fst) :=
  classify_non_deterministic_iff exDb "a.t"

/-- C4: when some cause scores positively, `classify` returns the first
cause, in the fixed taxonomy order timing, resource_leak, shared_state,
ordering, race_condition, timezone, float_precision, whose (bonus-adjusted)
score is maximal: every earlier cause scores strictly less and every later
cause scores no more. -/
theorem classify_first_max (db : Store) (name : String)
    (hpos : ∃ p ∈ finalScores db name, 0 < p.2) :
    ∃ l1 l2 s,
      finalScores db name = l1 ++ (classify db name, s) :: l2 ∧
      (∀ p ∈ l1, p.2 < s) ∧ (∀ p ∈ l2, p.2 ≤ s) ∧
      (finalScores db name).map Prod.fst =
        ["timing", "resource_leak", "shared_state", "ordering",
         "race_condition", "timezone", "float_precision"] := by
  obtain ⟨p, hp, hppos⟩ := hpos
  have hbpos : 0 < (pickBest (finalScores db name)).2 :=
    lt_of_lt_of_le hppos (pickBest_max _ (finalScores_ne_nil db name) p hp)
  have hcl : classify db name = (pickBest (finalScores db name)).1 := by
    unfold classify
    rw [if_pos hbpos]
  obtain ⟨l1, l2, hs, h1, h2⟩ := pickBest_spec _ (finalScores_ne_nil db name)
  refine ⟨l1, l2, (pickBest (finalScores db name)).2, ?_, h1, h2,
    finalScores_map_fst db name⟩
  rw [hcl]
  simpa using hs

/-- Witness for C4 at a concrete store (one failure mentioning "timeout"). -/
theorem classify_first_max_witness :
    (∃ p ∈ finalScores exDb "a.t", 0 < p.2) ∧
    (∃ l1 l2 s,
      finalScores exDb "a.t" = l1 ++ (classify exDb "a.t", s) :: l2 ∧
      (∀ p ∈ l1, p.2 < s) ∧ (∀ p ∈ l2, p.2 ≤ s) ∧
      (finalScores exDb "a.t").map Prod.fst =
        ["timing", "resource_leak", "shared_state", "ordering",
         "race_condition", "timezone", "float_precision"]) :=
  ⟨by decide, classify_first_max exDb "a.t" (by decide)⟩

/-- C5: on every record produced by `detect`, `add_costs` sets `reruns` to
the number of distinct run identifiers in which the test had a non-passing
result and `cost_usd = round(reruns * rerun_min * ci_rate, 2)` exactly, for
all non-negative parameter values. -/
theorem add_costs_formula (db : Store) (mr : ℕ) (th ci rr : ℚ)
    (_hci : 0 ≤ ci) (_hrr : 0 ≤ rr) :
    ∀ r ∈ add_costs (detect db mr th) db ci rr,
      r.reruns = ((npRows db r.test).map (fun x => x.run_id)).toFinset.card ∧
      r.cost_usd = pyRound ((r.reruns : ℚ) * rr * ci) 2 := by
  intro r hr
  simp only [add_costs, List.mem_map] at hr
  obtain ⟨q, _, rfl⟩ := hr
  refine ⟨?_, rfl⟩
  simp [rerunCount, List.card_toFinset]

/-- Witness for C5 at a concrete store and parameters. -/
theorem add_costs_formula_witness :
    (0 : ℚ) ≤ 1 ∧ (0 : ℚ) ≤ 10 ∧
    ∀ r ∈ add_costs (detect exDb 3 1) exDb 1 10,
      r.reruns = ((npRows exDb r.test).map (fun x => x.run_id)).toFinset.card ∧
      r.cost_usd = pyRound ((r.reruns : ℚ) * 10 * 1) 2 :=
  ⟨by decide, by decide, add_costs_formula exDb 3 1 1 10 (by decide) (by decide)⟩

/-! ### Ingestion -/

/-- C8 (amended): an unparseable report fails with the parse error and
leaves the stored history unchanged, and a successful parse records every
test case of the file; but a test case with missing attributes is not an
error (see the counterexample below). -/
theorem ingest_atomic (db : Store) (e : String) (ridOpt : Option String)
    (now : ℕ) (tcs : List TestCaseElem) :
    ingest db (Except.error e) ridOpt now = (db, Except.error e) ∧
    (ingest db (Except.ok tcs) ridOpt now).1 =
      db ++ tcs.map (fun tc => rowOfTc tc (runIdOf ridOpt now) now) :=
  ⟨rfl, rfl⟩

/-- A test-case element with every attribute and child missing. -/
def tcBare : TestCaseElem :=
  { classname := none, name := none, time := none, failure := none, err := none }

/-- A test-case element with qualified name `x.y` and no children. -/
def tcXY : TestCaseElem :=
  { classname := some "x", name := some "y", time := none, failure := none, err := none }

/-- Counterexample to C8 as stated: a test case with every attribute
missing does not produce a parse error — `ingest` succeeds, defaults the
name to `"."`, the time to 0 and the status to pass, and changes history. -/
theorem ingest_missing_attrs_not_an_error :
    ingest [] (Except.ok [tcBare]) none 5 =
      ([{ name := ".", status := Status.pass, duration := 0, error := "",
          run_id := "r-5", ts := 5 }], Except.ok (1, "r-5")) :=
  rfl

/-- C9 (amended): ingesting a well-formed report with k test cases grows
the store by exactly k and returns `(k, run_id)`; when the run identifier
does not already occur in the store, filtering by it selects exactly the k
newly stored rows. -/
theorem ingest_roundtrip (db : Store) (tcs : List TestCaseElem)
    (ridOpt : Option String) (now : ℕ) :
    (ingest db (Except.ok tcs) ridOpt now).1.length = db.length + tcs.length ∧
    (ingest db (Except.ok tcs) ridOpt now).2 =
      Except.ok (tcs.length, runIdOf ridOpt now) ∧
    ((∀ r ∈ db, r.run_id ≠ runIdOf ridOpt now) →
      (ingest db (Except.ok tcs) ridOpt now).1.filter
          (fun r => decide (r.run_id = runIdOf ridOpt now)) =
        tcs.map (fun tc => rowOfTc tc (runIdOf ridOpt now) now)) := by
  refine ⟨by simp [ingest], rfl, ?_⟩
  intro hfresh
  simp only [ingest, List.filter_append]
  rw [List.filter_eq_nil_iff.2 (fun r hr => by simpa using hfresh r hr),
    List.filter_eq_self.2 ?_, List.nil_append]
  intro r hr
  obtain ⟨tc, _, rfl⟩ := List.mem_map.1 hr
  simp [rowOfTc]

/-- Witness for C9 at a concrete store with a fresh run identifier. -/
theorem ingest_roundtrip_witness :
    (ingest [exRow "x.y" Status.pass "" "r1" 0]
        (Except.ok [tcXY]) (some "rw") 3).1.length =
      ([exRow "x.y" Status.pass "" "r1" 0] : Store).length + [tcXY].length ∧
    (ingest [exRow "x.y" Status.pass "" "r1" 0]
        (Except.ok [tcXY]) (some "rw") 3).2 =
      Except.ok ([tcXY].length, runIdOf (some "rw") 3) ∧
    (ingest [exRow "x.y" Status.pass "" "r1" 0]
        (Except.ok [tcXY]) (some "rw") 3).1.filter
        (fun r => decide (r.run_id = runIdOf (some "rw") 3)) =
      [tcXY].map (fun tc => rowOfTc tc (runIdOf (some "rw") 3) 3) :=
  ⟨(ingest_roundtrip [exRow "x.y" Status.pass "" "r1" 0] [tcXY] (some "rw") 3).1,
   (ingest_roundtrip [exRow "x.y" Status.pass "" "r1" 0] [tcXY] (some "rw") 3).2.1,
   (ingest_roundtrip [exRow "x.y" Status.pass "" "r1" 0] [tcXY] (some "rw") 3).2.2
     (by decide)⟩

/-- Counterexample to C9 as stated: when the caller reuses a run identifier
already present in the store, filtering by the returned identifier selects
a pre-existing row in addition to the k = 1 newly stored one. -/
theorem ingest_reused_run_id_overcounts :
    ((ingest [exRow "x.y" Status.pass "" "r1" 0]
        (Except.ok [tcXY]) (some "r1") 9).1.filter
        (fun r => decide (r.run_id = "r1"))).length = 2 ∧
    (ingest [exRow "x.y" Status.pass "" "r1" 0]
        (Except.ok [tcXY]) (some "r1") 9).2 = Except.ok (1, "r1") :=
  ⟨by decide, rfl⟩

/-- C10: a test case with both a failure and an error child is stored as
status `fail` with the failure child's message; one with neither child is
stored as status `pass` with an empty message. -/
theorem rowOfTc_children (tc : TestCaseElem) (rid : String) (ts : ℕ) :
    (∀ f e, tc.failure = some f → tc.err = some e →
      (rowOfTc tc rid ts).status = Status.fail ∧
      (rowOfTc tc rid ts).error = childMsg f) ∧
    (tc.failure = none → tc.err = none →
      (rowOfTc tc rid ts).status = Status.pass ∧
      (rowOfTc tc rid ts).error = "") := by
  constructor
  · intro f e hf he
    constructor <;> simp [rowOfTc, hf, he]
  · intro hf he
    constructor <;> simp [rowOfTc, hf, he]

/-- A failure child element with message `boom`. -/
def elBoom : MsgElem := { message := some "boom", text := none }

/-- An error child element with message `worse`. -/
def elWorse : MsgElem := { message := some "worse", text := none }

/-- A test-case element carrying both a failure and an error child. -/
def tcBoth : TestCaseElem :=
  { classname := some "c", name := some "n", time := none,
    failure := some elBoom, err := some elWorse }

/-- Witness for C10 at a concrete test case carrying both children. -/
theorem rowOfTc_children_witness :
    (rowOfTc tcBoth "r" 7).status = Status.fail ∧
    (rowOfTc tcBoth "r" 7).error = childMsg elBoom :=
  (rowOfTc_children tcBoth "r" 7).1 elBoom elWorse rfl rfl

end FlakyGuard
